import Mathlib

set_option maxRecDepth 10000

/-!
Verification of the PerplBot trading toolkit core against its specification.

The development shallowly embeds the relevant parts of the TypeScript source:

* the fork-based liquidation simulator's packed-storage-word helpers
  (`extractField` / `writeField`), boundary search (`findBoundaryFromSweep`),
  coarse price sweep, and liquidatability check (`checkLiquidatable`);
* the WebSocket client's order-submission frames, send gating, and
  disconnect/reconnect handling;
* the REST client's status-code handling on authenticated history calls;
* the exchange state tracker's positions/orders update handlers.

JavaScript `bigint` values are embedded as `ℕ`/`ℤ`. Where the source's
`number` (IEEE-754 binary64) arithmetic matters, binary64 values are embedded
as integer significand/exponent pairs with explicit round-to-nearest,
ties-to-even rounding (`Dbl`); where a claim is independent of float rounding,
`number` arithmetic is embedded as exact `ℚ` arithmetic, noted per
definition.
-/

namespace PerplBot

namespace Sim

/-- Embeds `extractField(word, bitOffset, bitWidth)` from the fork liquidation
simulator: `mask = (1n << bitWidth) - 1n; return (word >> bitOffset) & mask`.
Storage words and field values are nonnegative bigints, embedded as `ℕ`. -/
def extractField (word : ℕ) (bitOffset : ℕ) (bitWidth : ℕ) : ℕ :=
  let mask := (1 <<< bitWidth) - 1
  (word >>> bitOffset) &&& mask

/-- Embeds `writeField(word, bitOffset, bitWidth, value)`:
`cleared = word & ~(mask << bitOffset); return cleared | ((value & mask) << bitOffset)`.
For a nonnegative bigint `word`, the bigint expression `word & ~m` (with `m ≥ 0`)
is exactly `Nat.ldiff word m`. -/
def writeField (word : ℕ) (bitOffset : ℕ) (bitWidth : ℕ) (value : ℕ) : ℕ :=
  let mask := (1 <<< bitWidth) - 1
  let cleared := Nat.ldiff word (mask <<< bitOffset)
  cleared ||| ((value &&& mask) <<< bitOffset)

theorem testBit_extractField (w o n i : ℕ) :
    (extractField w o n).testBit i = (w.testBit (o + i) && decide (i < n)) := by
  unfold extractField
  simp [Nat.testBit_land, Nat.testBit_shiftRight, Nat.one_shiftLeft,
    Nat.testBit_two_pow_sub_one, Bool.and_comm]

theorem testBit_writeField (w o n v i : ℕ) :
    (writeField w o n v).testBit i =
      if o ≤ i ∧ i < o + n then v.testBit (i - o) else w.testBit i := by
  unfold writeField
  simp only [Nat.one_shiftLeft, Nat.testBit_lor, Nat.testBit_ldiff, Nat.testBit_land,
    Nat.testBit_shiftLeft, Nat.testBit_two_pow_sub_one, ge_iff_le]
  by_cases h1 : o ≤ i
  · by_cases h2 : i - o < n
    · have h3 : o ≤ i ∧ i < o + n := ⟨h1, by omega⟩
      simp [h1, h2, h3]
    · have h3 : ¬(o ≤ i ∧ i < o + n) := by omega
      have h4 : ¬(i < o + n) := by omega
      simp [h1, h2, h3, h4]
  · have h3 : ¬(o ≤ i ∧ i < o + n) := by omega
    simp [h1, h3]

/-- C1: for every 256-bit word `w` and every bit offset `o ∈ {0, 32, …, 224}`,
re-writing the 32-bit field extracted at offset `o` reproduces `w` bit-exactly;
for every value `v`, `writeField w o 32 v` agrees with `w` on every bit outside
the 32-bit window at offset `o`; and extracting after writing returns `v`
masked to 32 bits. -/
theorem writeField_extractField_roundtrip (w o v i : ℕ)
    (hw : w < 2 ^ 256)
    (ho : o ∈ [0, 32, 64, 96, 128, 160, 192, 224])
    (hi : i < o ∨ o + 32 ≤ i) :
    writeField w o 32 (extractField w o 32) = w ∧
    (writeField w o 32 v).testBit i = w.testBit i ∧
    extractField (writeField w o 32 v) o 32 = v % 2 ^ 32 := by
  refine ⟨?_, ?_, ?_⟩
  · apply Nat.eq_of_testBit_eq
    intro j
    rw [testBit_writeField]
    by_cases h : o ≤ j ∧ j < o + 32
    · rw [if_pos h, testBit_extractField]
      have hj : o + (j - o) = j := by omega
      have hlt : j - o < 32 := by omega
      simp [hj, hlt]
    · rw [if_neg h]
  · rw [testBit_writeField]
    have h : ¬(o ≤ i ∧ i < o + 32) := by omega
    rw [if_neg h]
  · apply Nat.eq_of_testBit_eq
    intro j
    rw [testBit_extractField, testBit_writeField, Nat.testBit_mod_two_pow]
    by_cases hj : j < 32
    · have h : o ≤ o + j ∧ o + j < o + 32 := by omega
      rw [if_pos h]
      simp [hj, Nat.add_sub_cancel_left, Bool.and_comm]
    · simp [hj]

/-- Witness for C1 at `w = 12345`, `o = 32`, `v = 777`, `i = 2`. -/
theorem writeField_extractField_roundtrip_witness :
    writeField 12345 32 32 (extractField 12345 32 32) = 12345 ∧
    (writeField 12345 32 32 777).testBit 2 = (12345 : ℕ).testBit 2 ∧
    extractField (writeField 12345 32 32 777) 32 32 = 777 % 2 ^ 32 :=
  writeField_extractField_roundtrip 12345 32 777 2 (by norm_num)
    (by decide) (Or.inl (by decide))

/-- Embeds the fields of `ForkPricePoint` that the boundary search reads:
`pricePNS` (a bigint) and `isLiquidatable`. -/
structure ForkPricePoint where
  pricePNS : ℤ
  isLiquidatable : Bool
deriving DecidableEq, Repr

/-- Ascending-price comparison used by the sweep sort
(`sort((a, b) => Number(a.pricePNS - b.pricePNS))`). -/
def pointLE (a b : ForkPricePoint) : Prop := a.pricePNS ≤ b.pricePNS

instance : DecidableRel pointLE := fun a b => Int.decLe a.pricePNS b.pricePNS

instance : IsTotal ForkPricePoint pointLE := ⟨fun a b => Int.le_total a.pricePNS b.pricePNS⟩

instance : IsTrans ForkPricePoint pointLE := ⟨fun _ _ _ => Int.le_trans⟩

/-- Embeds the long-side loop of `findBoundaryFromSweep`: scan `i` from the end
of the sorted list down to `1`, returning `(lastSafe, firstLiquidatable) =
(sorted[i], sorted[i-1])` for the first (highest) `i` with `sorted[i]` safe and
`sorted[i-1]` liquidatable. The recursion prefers the deeper (higher-index)
match, exactly as the downward scan does. -/
def findPairLong : List ForkPricePoint → Option (ForkPricePoint × ForkPricePoint)
  | a :: b :: rest =>
    match findPairLong (b :: rest) with
    | some r => some r
    | none =>
      if b.isLiquidatable = false ∧ a.isLiquidatable = true then some (b, a) else none
  | _ => none

/-- Embeds the short-side loop of `findBoundaryFromSweep`: scan `i` upward,
returning `(lastSafe, firstLiquidatable) = (sorted[i], sorted[i+1])` for the
first (lowest) `i` with `sorted[i]` safe and `sorted[i+1]` liquidatable. -/
def findPairShort : List ForkPricePoint → Option (ForkPricePoint × ForkPricePoint)
  | a :: b :: rest =>
    if a.isLiquidatable = false ∧ b.isLiquidatable = true then some (a, b)
    else findPairShort (b :: rest)
  | _ => none

/-- Embeds `findBoundaryFromSweep(points, isLong)`. The source sorts a copy of
`points` ascending by `pricePNS` with JavaScript's stable `Array.prototype.sort`;
a stable sort under a total preorder has a unique output, so `insertionSort`
(stable) is an exact embedding of it. -/
def findBoundaryFromSweep (points : List ForkPricePoint) (isLong : Bool) :
    Option (ForkPricePoint × ForkPricePoint) :=
  let sorted := List.insertionSort pointLE points
  if isLong then findPairLong sorted else findPairShort sorted

theorem findPairLong_eq_some {l : List ForkPricePoint} {ls fl : ForkPricePoint}
    (h : findPairLong l = some (ls, fl)) :
    ls.isLiquidatable = false ∧ fl.isLiquidatable = true ∧
      ∃ i, l[i]? = some fl ∧ l[i + 1]? = some ls := by
  induction l with
  | nil => simp [findPairLong] at h
  | cons a t ih =>
    cases t with
    | nil => simp [findPairLong] at h
    | cons b rest =>
      rw [findPairLong] at h
      cases hrec : findPairLong (b :: rest) with
      | some r =>
        rw [hrec] at h
        simp only [Option.some.injEq] at h
        subst h
        obtain ⟨h1, h2, i, hi, hi1⟩ := ih hrec
        exact ⟨h1, h2, i + 1, by simpa using hi, by simpa using hi1⟩
      | none =>
        rw [hrec] at h
        by_cases hc : b.isLiquidatable = false ∧ a.isLiquidatable = true
        · rw [if_pos hc] at h
          simp only [Option.some.injEq, Prod.mk.injEq] at h
          obtain ⟨rfl, rfl⟩ := h
          exact ⟨hc.1, hc.2, 0, by simp, by simp⟩
        · rw [if_neg hc] at h
          exact absurd h (by simp)

theorem findPairShort_eq_some {l : List ForkPricePoint} {ls fl : ForkPricePoint}
    (h : findPairShort l = some (ls, fl)) :
    ls.isLiquidatable = false ∧ fl.isLiquidatable = true ∧
      ∃ i, l[i]? = some ls ∧ l[i + 1]? = some fl := by
  induction l with
  | nil => simp [findPairShort] at h
  | cons a t ih =>
    cases t with
    | nil => simp [findPairShort] at h
    | cons b rest =>
      rw [findPairShort] at h
      by_cases hc : a.isLiquidatable = false ∧ b.isLiquidatable = true
      · rw [if_pos hc] at h
        simp only [Option.some.injEq, Prod.mk.injEq] at h
        obtain ⟨rfl, rfl⟩ := h
        exact ⟨hc.1, hc.2, 0, by simp, by simp⟩
      · rw [if_neg hc] at h
        obtain ⟨h1, h2, i, hi, hi1⟩ := ih h
        exact ⟨h1, h2, i + 1, by simpa using hi, by simpa using hi1⟩

theorem findPairLong_none_of_const {l : List ForkPricePoint} {c : Bool}
    (h : ∀ p ∈ l, p.isLiquidatable = c) : findPairLong l = none := by
  induction l with
  | nil => rfl
  | cons a t ih =>
    cases t with
    | nil => rfl
    | cons b rest =>
      rw [findPairLong]
      have hrec : findPairLong (b :: rest) = none :=
        ih (fun p hp => h p (List.mem_cons_of_mem a hp))
      rw [hrec]
      have ha := h a (List.mem_cons_self a _)
      have hb := h b (List.mem_cons_of_mem a (List.mem_cons_self b _))
      rw [if_neg]
      rintro ⟨h1, h2⟩
      rw [ha] at h2
      rw [hb] at h1
      subst h2
      exact absurd h1 (by simp)

theorem findPairShort_none_of_const {l : List ForkPricePoint} {c : Bool}
    (h : ∀ p ∈ l, p.isLiquidatable = c) : findPairShort l = none := by
  induction l with
  | nil => rfl
  | cons a t ih =>
    cases t with
    | nil => rfl
    | cons b rest =>
      rw [findPairShort]
      have ha := h a (List.mem_cons_self a _)
      have hb := h b (List.mem_cons_of_mem a (List.mem_cons_self b _))
      rw [if_neg]
      · exact ih (fun p hp => h p (List.mem_cons_of_mem a hp))
      · rintro ⟨h1, h2⟩
        rw [ha] at h1
        rw [hb] at h2
        subst h1
        exact absurd h2 (by simp)

theorem sorted_adjacent_le {l : List ForkPricePoint} (hs : l.Sorted pointLE)
    {i : ℕ} {a b : ForkPricePoint} (ha : l[i]? = some a) (hb : l[i + 1]? = some b) :
    a.pricePNS ≤ b.pricePNS := by
  have hlen : i + 1 < l.length := by
    by_contra hcon
    rw [List.getElem?_eq_none (by omega)] at hb
    exact absurd hb (by simp)
  have hia : l[i] = a := by
    have := List.getElem?_eq_getElem (l := l) (n := i) (by omega)
    rw [ha] at this
    exact (Option.some.injEq _ _ ▸ this.symm)
  have hib : l[i + 1] = b := by
    have := List.getElem?_eq_getElem (l := l) (n := i + 1) hlen
    rw [hb] at this
    exact (Option.some.injEq _ _ ▸ this.symm)
  have := hs.rel_get_of_lt (a := ⟨i, by omega⟩) (b := ⟨i + 1, hlen⟩)
    (by simp [Fin.lt_def])
  simpa [List.get_eq_getElem, hia, hib, pointLE] using this

/-- C3: whenever `findBoundaryFromSweep` returns a boundary it is an adjacent
pair of the price-sorted sweep points, with `lastSafe` not liquidatable and
`firstLiquidatable` liquidatable; for a long position the safe price is the
higher of the pair, for a short position the lower; and when all points are
liquidatable, or all are safe, no boundary is returned. -/
theorem findBoundaryFromSweep_spec (points : List ForkPricePoint) (isLong : Bool) :
    (∀ ls fl, findBoundaryFromSweep points isLong = some (ls, fl) →
      ls.isLiquidatable = false ∧ fl.isLiquidatable = true ∧
      (isLong = true →
        (∃ i, (List.insertionSort pointLE points)[i]? = some fl ∧
          (List.insertionSort pointLE points)[i + 1]? = some ls) ∧
        fl.pricePNS ≤ ls.pricePNS) ∧
      (isLong = false →
        (∃ i, (List.insertionSort pointLE points)[i]? = some ls ∧
          (List.insertionSort pointLE points)[i + 1]? = some fl) ∧
        ls.pricePNS ≤ fl.pricePNS)) ∧
    (((∀ p ∈ points, p.isLiquidatable = true) ∨ (∀ p ∈ points, p.isLiquidatable = false)) →
      findBoundaryFromSweep points isLong = none) := by
  have hsorted : (List.insertionSort pointLE points).Sorted pointLE :=
    List.sorted_insertionSort pointLE points
  constructor
  · intro ls fl h
    cases isLong with
    | true =>
      rw [findBoundaryFromSweep, if_pos rfl] at h
      obtain ⟨h1, h2, i, hi, hi1⟩ := findPairLong_eq_some h
      exact ⟨h1, h2,
        fun _ => ⟨⟨i, hi, hi1⟩, sorted_adjacent_le hsorted hi hi1⟩,
        fun hcon => absurd hcon (by simp)⟩
    | false =>
      rw [findBoundaryFromSweep, if_neg (by simp)] at h
      obtain ⟨h1, h2, i, hi, hi1⟩ := findPairShort_eq_some h
      exact ⟨h1, h2,
        fun hcon => absurd hcon (by simp),
        fun _ => ⟨⟨i, hi, hi1⟩, sorted_adjacent_le hsorted hi hi1⟩⟩
  · intro hall
    have hmem : ∀ p ∈ List.insertionSort pointLE points, p ∈ points := fun p hp =>
      (List.perm_insertionSort pointLE points).mem_iff.mp hp
    rw [findBoundaryFromSweep]
    cases hall with
    | inl hc =>
      have h : ∀ p ∈ List.insertionSort pointLE points, p.isLiquidatable = true :=
        fun p hp => hc p (hmem p hp)
      cases isLong <;>
        simp [findPairLong_none_of_const h, findPairShort_none_of_const h]
    | inr hc =>
      have h : ∀ p ∈ List.insertionSort pointLE points, p.isLiquidatable = false :=
        fun p hp => hc p (hmem p hp)
      cases isLong <;>
        simp [findPairLong_none_of_const h, findPairShort_none_of_const h]

/-- Witness for C3: on the sweep `[{100, liquidatable}, {200, safe}]` for a long
position the boundary is found with the expected flags and price order, and an
all-liquidatable sweep returns no boundary. -/
theorem findBoundaryFromSweep_spec_witness :
    ((⟨200, false⟩ : ForkPricePoint).isLiquidatable = false ∧
      (⟨100, true⟩ : ForkPricePoint).isLiquidatable = true ∧
      (100 : ℤ) ≤ 200) ∧
    findBoundaryFromSweep [⟨100, true⟩, ⟨100, true⟩] true = none := by
  constructor
  · have h := (findBoundaryFromSweep_spec [⟨100, true⟩, ⟨200, false⟩] true).1
      ⟨200, false⟩ ⟨100, true⟩ (by decide)
    exact ⟨h.1, h.2.1, (h.2.2.1 rfl).2⟩
  · exact (findBoundaryFromSweep_spec [⟨100, true⟩, ⟨100, true⟩] true).2
      (Or.inl (by decide))

/-- Fork-side effects performed by the coarse sweep loop of
`simulateForkLiquidation` at one price point: `evm_snapshot`, `setPrice`
(read-modify-write of the packed storage word), `checkLiquidatable`, and
`evm_revert` in the loop's `finally`. -/
inductive SweepAction where
  | snapshot
  | writePrice (price : ℚ)
  | checkLiq
  | revert
deriving DecidableEq, Repr

/-- Embeds the price points evaluated by the coarse sweep of
`simulateForkLiquidation`: `lowPrice = mark·(1 − r/100)`,
`highPrice = mark·(1 + r/100)`, `step = (high − low)/steps` (0 when
`steps = 0`), and the loop `for (i = 0; i <= priceSteps; i++)` evaluating
`lowPrice + step·i`. JavaScript number arithmetic is embedded as exact `ℚ`
arithmetic. -/
def sweepPrices (currentMarkPrice : ℚ) (priceRangePct : ℚ) (priceSteps : ℕ) : List ℚ :=
  let lowPrice := currentMarkPrice * (1 - priceRangePct / 100)
  let highPrice := currentMarkPrice * (1 + priceRangePct / 100)
  let step := if 0 < priceSteps then (highPrice - lowPrice) / priceSteps else 0
  (List.range (priceSteps + 1)).map (fun i : ℕ => lowPrice + step * (i : ℚ))

/-- Fork actions of one coarse-sweep loop iteration, in source order. -/
def sweepBlock (p : ℚ) : List SweepAction :=
  [SweepAction.snapshot, SweepAction.writePrice p, SweepAction.checkLiq, SweepAction.revert]

/-- Fork-action trace of the whole coarse sweep. -/
def coarseSweepTrace (currentMarkPrice : ℚ) (priceRangePct : ℚ) (priceSteps : ℕ) :
    List SweepAction :=
  (sweepPrices currentMarkPrice priceRangePct priceSteps).bind sweepBlock

theorem count_snapshot_bind (ps : List ℚ) :
    (ps.bind sweepBlock).count SweepAction.snapshot = ps.length := by
  induction ps with
  | nil => rfl
  | cons p t ih => simp [List.cons_bind, List.count_append, sweepBlock, List.count_cons, ih]

theorem count_revert_bind (ps : List ℚ) :
    (ps.bind sweepBlock).count SweepAction.revert = ps.length := by
  induction ps with
  | nil => rfl
  | cons p t ih => simp [List.cons_bind, List.count_append, sweepBlock, List.count_cons, ih]

theorem count_checkLiq_bind (ps : List ℚ) :
    (ps.bind sweepBlock).count SweepAction.checkLiq = ps.length := by
  induction ps with
  | nil => rfl
  | cons p t ih => simp [List.cons_bind, List.count_append, sweepBlock, List.count_cons, ih]

theorem writePrice_mem_bind (ps : List ℚ) (p : ℚ) :
    SweepAction.writePrice p ∈ ps.bind sweepBlock ↔ p ∈ ps := by
  simp [List.mem_bind, sweepBlock, eq_comm]

/-- C4 counterexample: with the default `priceSteps = 20` the coarse sweep
evaluates 21 price points (`i = 0, …, 20`), not 20 as claimed. -/
theorem sweepPrices_count_counterexample :
    (sweepPrices 100 30 20).length = 21 ∧ (sweepPrices 100 30 20).length ≠ 20 := by
  constructor <;> simp only [sweepPrices, List.length_map, List.length_range] <;> decide

/-- C4 (amended): for `priceSteps = k > 0` and `priceRangePct = r` the coarse
sweep evaluates exactly `k + 1` price points, the `i`-th being
`low + i·(high − low)/k` for `low = mark·(1 − r/100)`, `high = mark·(1 + r/100)`
(so the points are uniformly spaced and cover both endpoints of the interval),
and the fork trace snapshots, writes the packed word, runs the liquidatability
check, and reverts, once per point. -/
theorem coarseSweep_spec (mark r : ℚ) (k i : ℕ) (hk : 0 < k) (hik : i ≤ k) :
    (sweepPrices mark r k).length = k + 1 ∧
    (sweepPrices mark r k)[i]? =
      some (mark * (1 - r / 100) +
        (mark * (1 + r / 100) - mark * (1 - r / 100)) / k * i) ∧
    mark * (1 - r / 100) +
        (mark * (1 + r / 100) - mark * (1 - r / 100)) / k * (0 : ℕ) =
      mark * (1 - r / 100) ∧
    mark * (1 - r / 100) +
        (mark * (1 + r / 100) - mark * (1 - r / 100)) / k * (k : ℕ) =
      mark * (1 + r / 100) ∧
    (coarseSweepTrace mark r k).count SweepAction.snapshot = k + 1 ∧
    (coarseSweepTrace mark r k).count SweepAction.revert = k + 1 ∧
    (coarseSweepTrace mark r k).count SweepAction.checkLiq = k + 1 ∧
    (∀ p : ℚ, SweepAction.writePrice p ∈ coarseSweepTrace mark r k ↔
      p ∈ sweepPrices mark r k) := by
  have hk0 : (k : ℚ) ≠ 0 := Nat.cast_ne_zero.mpr hk.ne'
  have hlen : (sweepPrices mark r k).length = k + 1 := by
    simp only [sweepPrices, List.length_map, List.length_range]
  refine ⟨hlen, ?_, by push_cast; ring, ?_, ?_, ?_, ?_, ?_⟩
  · simp only [sweepPrices, List.getElem?_map, List.getElem?_range (by omega : i < k + 1),
      if_pos hk, Option.map_some']
  · field_simp
    ring
  · rw [coarseSweepTrace, count_snapshot_bind, hlen]
  · rw [coarseSweepTrace, count_revert_bind, hlen]
  · rw [coarseSweepTrace, count_checkLiq_bind, hlen]
  · intro p
    exact writePrice_mem_bind (sweepPrices mark r k) p

/-- Witness for C4 at the defaults `mark = 100`, `r = 30`, `k = 20`, `i = 1`:
the sweep has 21 points, point 1 is `70 + 3 = 73`, the endpoints are 70 and
130, and each fork action occurs 21 times. -/
theorem coarseSweep_spec_witness :
    (sweepPrices 100 30 20).length = 20 + 1 ∧
    (sweepPrices 100 30 20)[1]? =
      some (100 * (1 - 30 / 100) +
        (100 * (1 + 30 / 100) - 100 * (1 - 30 / 100)) / 20 * 1) ∧
    (coarseSweepTrace 100 30 20).count SweepAction.snapshot = 20 + 1 := by
  have h := coarseSweep_spec 100 30 20 1 (by decide) (by decide)
  exact ⟨h.1, by simpa using h.2.1, h.2.2.2.2.1⟩

/-- Bit length of a natural number, with fuel for kernel-friendly structural
recursion (4096 far exceeds any exponent reachable here). -/
def bitLenAux : ℕ → ℕ → ℕ
  | 0, _ => 0
  | fuel + 1, n => if n = 0 then 0 else bitLenAux fuel (n / 2) + 1

def bitLen (n : ℕ) : ℕ := bitLenAux 4096 n

/-- Round `n / 2^s` to the nearest integer, ties to even (nonnegative case). -/
def roundOffBitsPos (n : ℕ) (s : ℕ) : ℕ :=
  let q := n / 2 ^ s
  let r := n % 2 ^ s
  if 2 * r < 2 ^ s then q
  else if 2 ^ s < 2 * r then q + 1
  else if q % 2 = 0 then q else q + 1

/-- Round `n / 2^s` to the nearest integer, ties to even (sign-symmetric, as
IEEE-754 round-to-nearest-even is). -/
def roundOffBits (n : ℤ) (s : ℕ) : ℤ :=
  if n < 0 then -(roundOffBitsPos n.natAbs s : ℤ) else (roundOffBitsPos n.natAbs s : ℤ)

/-- Value model of a JavaScript `number` (IEEE-754 binary64) in the normal
range: the value is `m · 2^e` with `m = 0` or `2^52 ≤ |m| < 2^53`. Overflow,
subnormals and NaN are outside the ranges exercised by the embedded code. -/
structure Dbl where
  m : ℤ
  e : ℤ
deriving DecidableEq, Repr

/-- Round the exact value `n · 2^e` to the nearest binary64 (ties to even). -/
def Dbl.ofScaled (n : ℤ) (e : ℤ) : Dbl :=
  if n = 0 then ⟨0, 0⟩
  else
    let k := bitLen n.natAbs
    if k ≤ 53 then ⟨n * 2 ^ (53 - k), e - (53 - k)⟩
    else
      let s := k - 53
      let q := roundOffBits n s
      if q.natAbs = 2 ^ 53 then ⟨q / 2, e + s + 1⟩ else ⟨q, e + s⟩

/-- Value of `Number(v)` for a bigint `v`: the bigint rounded to the nearest
binary64 (ECMAScript ToNumber on a BigInt). -/
def Dbl.ofInt (v : ℤ) : Dbl := Dbl.ofScaled v 0

/-- IEEE-754 binary64 multiplication: the exact product, correctly rounded. -/
def Dbl.mul (a b : Dbl) : Dbl :=
  if a.m = 0 ∨ b.m = 0 then ⟨0, 0⟩ else Dbl.ofScaled (a.m * b.m) (a.e + b.e)

/-- Value of `Math.floor` on a binary64, as an integer (the floor of a binary64
is always exactly representable, so the value-level floor is faithful). -/
def Dbl.floor (d : Dbl) : ℤ :=
  if 0 ≤ d.e then d.m * 2 ^ d.e.toNat else d.m / 2 ^ (-d.e).toNat

/-- Exact rational value of a binary64. -/
def Dbl.toRat (d : Dbl) : ℚ :=
  if 0 ≤ d.e then (d.m : ℚ) * 2 ^ d.e.toNat else (d.m : ℚ) / 2 ^ (-d.e).toNat

/-- Value of the source literal `0.05` (the default `maintenanceMargin`):
the binary64 nearest to 1/20, namely `7205759403792794 · 2^(−57)`. -/
def doubleLit005 : Dbl := Dbl.ofScaled 3602879701896397 (-56)

theorem doubleLit005_eq : doubleLit005 = ⟨7205759403792794, -57⟩ := by decide

/-- Sanity check that `doubleLit005` is the correctly rounded 0.05: its exact
value differs from 1/20 by less than half an ulp (`2^(−57)/2 = 2^(−58)`). -/
theorem doubleLit005_correctly_rounded :
    |Dbl.toRat ⟨7205759403792794, -57⟩ - 5 / 100| < 1 / 2 ^ 58 := by
  rw [Dbl.toRat, abs_sub_lt_iff]
  show (7205759403792794 : ℚ) / 2 ^ (57 : ℕ) - 5 / 100 < 1 / 2 ^ 58 ∧
    5 / 100 - (7205759403792794 : ℚ) / 2 ^ (57 : ℕ) < 1 / 2 ^ 58
  norm_num

/-- Result record of `checkLiquidatable`. -/
structure LiqCheck where
  liquidatable : Bool
  equity : ℤ
  maintenanceReq : ℤ
deriving DecidableEq, Repr

/-- Embeds `checkLiquidatable` from the fork liquidation simulator:
`equity = depositCNS + pnlCNS` (bigint), `positionValueCNS = markPrice * lotLNS`
(bigint), and
`maintenanceReq = BigInt(Math.floor(Number(positionValueCNS) * maintenanceMargin))`
— the position value is converted to a binary64 and multiplied by the binary64
`maintenanceMargin` before flooring. The position is reported liquidatable iff
`equity < maintenanceReq`. -/
def checkLiquidatable (depositCNS pnlCNS lotLNS markPrice : ℤ)
    (maintenanceMargin : Dbl) : LiqCheck :=
  let equity := depositCNS + pnlCNS
  let positionValueCNS := markPrice * lotLNS
  let maintenanceReq := (Dbl.mul (Dbl.ofInt positionValueCNS) maintenanceMargin).floor
  { liquidatable := decide (equity < maintenanceReq)
    equity := equity
    maintenanceReq := maintenanceReq }

/-- C7 counterexample: at `markPrice = 2^55 + 31`, `lotLNS = 1` and the default
maintenance margin 0.05, the maintenance requirement computed by
`checkLiquidatable` (1801439850948200, via binary64 floating point) differs
from the arbitrary-precision integer value
`⌊positionValue · 5 / 100⌋ = 1801439850948199`, refuting the claim that the
maintenance requirement is computed with integer arithmetic. -/
theorem checkLiquidatable_float_counterexample :
    (checkLiquidatable 0 0 1 (2 ^ 55 + 31) doubleLit005).maintenanceReq =
      1801439850948200 ∧
    ((2 ^ 55 + 31) * 1 * 5 : ℤ) / 100 = 1801439850948199 ∧
    (checkLiquidatable 0 0 1 (2 ^ 55 + 31) doubleLit005).maintenanceReq ≠
      ((2 ^ 55 + 31) * 1 * 5 : ℤ) / 100 :=
  ⟨by decide, by decide, by decide⟩

/-- C7 (amended): in `checkLiquidatable` the position value `markPrice · lotLNS`
and the equity `depositCNS + pnlCNS` are computed with arbitrary-precision
integer arithmetic, and the check reports the position liquidatable iff the
equity is strictly below the maintenance requirement; the maintenance
requirement itself, however, is obtained by converting the position value to a
64-bit float and multiplying by the float maintenance margin before flooring,
so it can deviate from exact integer arithmetic once the position value
reaches 2^53. -/
theorem checkLiquidatable_spec (depositCNS pnlCNS lotLNS markPrice : ℤ) (mm : Dbl) :
    (checkLiquidatable depositCNS pnlCNS lotLNS markPrice mm).equity =
      depositCNS + pnlCNS ∧
    (checkLiquidatable depositCNS pnlCNS lotLNS markPrice mm).maintenanceReq =
      (Dbl.mul (Dbl.ofInt (markPrice * lotLNS)) mm).floor ∧
    ((checkLiquidatable depositCNS pnlCNS lotLNS markPrice mm).liquidatable = true ↔
      depositCNS + pnlCNS < (Dbl.mul (Dbl.ofInt (markPrice * lotLNS)) mm).floor) := by
  refine ⟨rfl, rfl, ?_⟩
  simp [checkLiquidatable]

end Sim

namespace WS

/-- The two WebSocket endpoints the client constructs
(`${wsUrl}/ws/v1/market-data` and `${wsUrl}/ws/v1/trading`); the source's
`currentUrl.includes("trading")` distinguishes exactly these two. -/
inductive Endpoint where
  | marketData
  | trading
deriving DecidableEq, Repr

def Endpoint.includesTrading : Endpoint → Bool
  | .trading => true
  | .marketData => false

/-- Client state of `PerplWebSocketClient` relevant to connection management:
the chain id, the stored auth nonce, the stored (never re-used) cookies, the
subscription map's stream names in insertion order, the reconnect counter, and
the current URL. -/
structure State where
  chainId : ℕ
  authNonce : Option String
  cookies : Option String
  subscriptions : List String
  reconnectAttempts : ℕ
  currentUrl : Option Endpoint
deriving DecidableEq, Repr

/-- Externally visible effects of the connection-management code: emitted
events, timer waits, socket opens (with the Cookie header value actually passed
to the `WebSocket` constructor), and outbound frames. -/
inductive Event where
  | emitDisconnect (code : ℤ)
  | emitAuthExpired
  | emitFatal
  | emitConnect
  | wait (ms : ℕ)
  | openSocket (endpoint : Endpoint) (cookieHeader : Option String)
  | sendAuthSignIn (chainId : ℕ) (nonce : String)
  | sendSubscriptionRequest (streams : List String)
deriving DecidableEq, Repr

def Event.isSubscriptionSend : Event → Bool
  | .sendSubscriptionRequest _ => true
  | _ => false

/-- Embeds `reconnectDelays = [1000, 2000, 4000, 8000, 16000, 32000, 60000]`. -/
def reconnectDelays : List ℕ := [1000, 2000, 4000, 8000, 16000, 32000, 60000]

/-- Embeds `maxReconnectAttempts = 10`. -/
def maxReconnectAttempts : ℕ := 10

/-- Embeds the success path of `PerplWebSocketClient.connect(url, cookies?)`:
`currentUrl = url`; `if (cookies) this.cookies = cookies`; the `WebSocket` is
constructed with a Cookie header iff the `cookies` PARAMETER is provided (the
saved `this.cookies` field is never read); on `open` the reconnect counter is
reset and `connect` is emitted. -/
def connect (st : State) (url : Endpoint) (cookies : Option String) :
    State × List Event :=
  let st1 := { st with
    currentUrl := some url
    cookies := if cookies.isSome then cookies else st.cookies }
  ({ st1 with reconnectAttempts := 0 },
    [Event.openSocket url cookies, Event.emitConnect])

/-- Embeds the success path of `connectTrading(authNonce, cookies?)`: store the
nonce, `connect` to the trading endpoint, then send the `mt: 4` auth sign-in
message carrying `chain_id` and the nonce (authentication is confirmed by the
wallet snapshot, covered by the success outcome). -/
def connectTrading (st : State) (authNonce : String) (cookies : Option String) :
    State × List Event :=
  let st1 := { st with authNonce := some authNonce }
  let res := connect st1 Endpoint.trading cookies
  (res.1, res.2 ++ [Event.sendAuthSignIn st1.chainId authNonce])

/-- Embeds `resubscribeAll()`: one batched `mt: 5` request carrying every
stored stream name, sent only when at least one subscription exists. -/
def resubscribeAll (st : State) : List Event :=
  if st.subscriptions.isEmpty then []
  else [Event.sendSubscriptionRequest st.subscriptions]

/-- Embeds `handleDisconnect(code)`. The `outcomes` list supplies the result of
each successive reconnection attempt (`true` = the `connect` promise resolves,
`false` = it rejects, which the source handles by recursing with code 0); an
empty list leaves the attempt pending with no further events. Mirrors the
source order: emit `disconnect`; code 3401 → emit `auth-expired` and stop;
attempts left → wait `reconnectDelays[min(attempts, len-1)]`, increment the
counter, reconnect (via `connectTrading(this.authNonce)` — without cookies —
when an auth nonce is stored and the URL is the trading endpoint, else via
`connect(currentUrl)`), then `resubscribeAll()`; attempts exhausted → emit
`fatal`. -/
def handleDisconnect : State → ℤ → List Bool → State × List Event
  | st, code, outcomes =>
    if code = 3401 then
      (st, [Event.emitDisconnect code, Event.emitAuthExpired])
    else if st.reconnectAttempts < maxReconnectAttempts ∧ st.currentUrl.isSome then
      let delay := reconnectDelays.getD
        (min st.reconnectAttempts (reconnectDelays.length - 1)) 0
      let st1 := { st with reconnectAttempts := st.reconnectAttempts + 1 }
      match outcomes with
      | [] => (st1, [Event.emitDisconnect code, Event.wait delay])
      | ok :: rest =>
        if ok then
          let res :=
            match st1.authNonce, st1.currentUrl with
            | some nonce, some url =>
              if url.includesTrading then connectTrading st1 nonce none
              else connect st1 url none
            | none, some url => connect st1 url none
            | _, none => (st1, [])
          (res.1,
            [Event.emitDisconnect code, Event.wait delay] ++ res.2 ++ resubscribeAll res.1)
        else
          let res := handleDisconnect st1 0 rest
          (res.1, [Event.emitDisconnect code, Event.wait delay] ++ res.2)
    else
      (st, [Event.emitDisconnect code, Event.emitFatal])

theorem reconnectDelays_getD_formula (n : ℕ) (h : n < 10) :
    reconnectDelays.getD (min n (reconnectDelays.length - 1)) 0 =
      if n ≤ 5 then 1000 * 2 ^ n else 60000 := by
  interval_cases n <;> decide

theorem connect_subscriptions (st : State) (url : Endpoint) (cookies : Option String) :
    (connect st url cookies).1.subscriptions = st.subscriptions := rfl

theorem connectTrading_subscriptions (st : State) (nonce : String)
    (cookies : Option String) :
    (connectTrading st nonce cookies).1.subscriptions = st.subscriptions := rfl

/-- C2 (code bug): the initial `connectTrading(nonce, cookies)` opens the
trading socket with the session cookie header and then sends the auth message
carrying the session nonce — both credentials together; but after a disconnect
with a code other than 3401 the automatic reconnect calls
`connectTrading(this.authNonce)` without cookies, and `connect` attaches a
Cookie header only from its parameter (the saved `this.cookies` field is never
read), so the re-established trading connection presents the session nonce with
no session cookie. -/
theorem reconnect_sends_nonce_without_cookie :
    (connectTrading ⟨10143, none, none, [], 0, none⟩ "nonce1" (some "cookie1")).2 =
      [Event.openSocket Endpoint.trading (some "cookie1"), Event.emitConnect,
       Event.sendAuthSignIn 10143 "nonce1"] ∧
    (handleDisconnect ⟨10143, some "nonce1", some "cookie1", [], 0,
        some Endpoint.trading⟩ 1006 [true]).2 =
      [Event.emitDisconnect 1006, Event.wait 1000,
       Event.openSocket Endpoint.trading none, Event.emitConnect,
       Event.sendAuthSignIn 10143 "nonce1"] := by
  constructor <;> decide

/-- C5: a close with code 3401 emits `auth-expired` and schedules no reconnect;
with any other code and the reconnect budget exhausted it emits `fatal`; with
budget remaining, the n-th reconnect attempt (0-indexed counter `n`) first
waits the n-th backoff delay — 1, 2, 4, 8, 16, 32 seconds for `n ≤ 5` and 60
seconds thereafter, for at most 10 attempts; and after a successful reconnect
the previously subscribed stream names are re-issued in exactly one batched
`mt: 5` request. -/
theorem handleDisconnect_spec (st : State) (code : ℤ) (outcomes : List Bool) :
    (code = 3401 →
      handleDisconnect st code outcomes =
        (st, [Event.emitDisconnect code, Event.emitAuthExpired])) ∧
    (code ≠ 3401 → maxReconnectAttempts ≤ st.reconnectAttempts →
      handleDisconnect st code outcomes =
        (st, [Event.emitDisconnect code, Event.emitFatal])) ∧
    (code ≠ 3401 → st.currentUrl.isSome = true →
      st.reconnectAttempts < maxReconnectAttempts →
      (handleDisconnect st code outcomes).2.take 2 =
        [Event.emitDisconnect code,
         Event.wait (if st.reconnectAttempts ≤ 5 then 1000 * 2 ^ st.reconnectAttempts
           else 60000)]) ∧
    (code ≠ 3401 → st.currentUrl.isSome = true →
      st.reconnectAttempts < maxReconnectAttempts →
      st.subscriptions ≠ [] →
      (handleDisconnect st code [true]).2.filter Event.isSubscriptionSend =
        [Event.sendSubscriptionRequest st.subscriptions]) := by
  refine ⟨?_, ?_, ?_, ?_⟩
  · intro h
    rw [handleDisconnect, if_pos h]
  · intro h hmax
    rw [handleDisconnect, if_neg h, if_neg ?_]
    rintro ⟨hlt, _⟩
    omega
  · intro h hsome hlt
    rw [handleDisconnect, if_neg h, if_pos ⟨hlt, hsome⟩,
      ← reconnectDelays_getD_formula st.reconnectAttempts hlt]
    cases outcomes with
    | nil => rfl
    | cons ok rest =>
      cases ok <;> simp
  · intro h hsome hlt hsubs
    obtain ⟨url, hurl⟩ := Option.isSome_iff_exists.mp hsome
    rw [handleDisconnect, if_neg h, if_pos ⟨hlt, hsome⟩]
    have hempty : st.subscriptions.isEmpty = false := by
      simpa [List.isEmpty_iff] using hsubs
    cases hnonce : st.authNonce with
    | none =>
      simp [hurl, hnonce, connect, resubscribeAll, hempty,
        List.filter_append, Event.isSubscriptionSend]
    | some nonce =>
      cases url <;>
        simp [hurl, hnonce, connect, connectTrading, resubscribeAll, hempty,
          List.filter_append, Event.isSubscriptionSend, Endpoint.includesTrading]

/-- Witness for C5 at a concrete client state (chain 10143, one stored
subscription, trading endpoint). -/
theorem handleDisconnect_spec_witness :
    handleDisconnect ⟨10143, some "n1", some "c1", ["order-book@16"], 0,
        some Endpoint.trading⟩ 3401 [] =
      (⟨10143, some "n1", some "c1", ["order-book@16"], 0, some Endpoint.trading⟩,
        [Event.emitDisconnect 3401, Event.emitAuthExpired]) ∧
    handleDisconnect ⟨10143, some "n1", some "c1", [], 10, some Endpoint.trading⟩
        1006 [] =
      (⟨10143, some "n1", some "c1", [], 10, some Endpoint.trading⟩,
        [Event.emitDisconnect 1006, Event.emitFatal]) ∧
    (handleDisconnect ⟨10143, some "n1", some "c1", ["order-book@16"], 0,
        some Endpoint.trading⟩ 1006 []).2.take 2 =
      [Event.emitDisconnect 1006, Event.wait 1000] ∧
    (handleDisconnect ⟨10143, some "n1", some "c1", ["order-book@16"], 0,
        some Endpoint.trading⟩ 1006 [true]).2.filter Event.isSubscriptionSend =
      [Event.sendSubscriptionRequest ["order-book@16"]] := by
  refine ⟨?_, ?_, ?_, ?_⟩
  · exact (handleDisconnect_spec _ 3401 []).1 rfl
  · exact (handleDisconnect_spec _ 1006 []).2.1 (by decide) (by decide)
  · simpa using (handleDisconnect_spec
      ⟨10143, some "n1", some "c1", ["order-book@16"], 0, some Endpoint.trading⟩
      1006 []).2.2.1 (by decide) rfl (by decide)
  · exact (handleDisconnect_spec
      ⟨10143, some "n1", some "c1", ["order-book@16"], 0, some Endpoint.trading⟩
      1006 [true]).2.2.2 (by decide) rfl (by decide) (by simp)

/-- Embeds the fields of the `OrderRequest` frame built by `submitOrder` and
the order helpers (`mt` is fixed to 22 and recorded in `OrderFrame`). -/
structure OrderRequest where
  rq : ℕ
  mkt : ℕ
  acc : ℕ
  oid : Option ℕ
  t : ℕ
  p : ℤ
  s : ℤ
  fl : ℕ
  lp : Option ℕ
  lv : ℕ
  lb : ℕ
deriving DecidableEq, Repr

/-- An outbound WebSocket order frame: `{mt: 22, ...request, rq}`. -/
structure OrderFrame where
  mt : ℕ
  rq : ℕ
  mkt : ℕ
  acc : ℕ
  oid : Option ℕ
  t : ℕ
  p : ℤ
  s : ℤ
  fl : ℕ
  lp : Option ℕ
  lv : ℕ
  lb : ℕ
deriving DecidableEq, Repr

/-- Embeds `send(msg)`: the frame is written to the socket only when
`ws.readyState === OPEN`; otherwise the call returns without transmitting,
raising, or queueing anything (the client has no send buffer). `none` means no
frame was transmitted. -/
def send (socketOpen : Bool) (frame : OrderFrame) : Option OrderFrame :=
  if socketOpen then some frame else none

/-- Embeds JavaScript truthiness of the optional `price` field, as used in
`params.price ? 0 : 4` and `request.rq || Date.now()`: `undefined` and `0` are
falsy. -/
def jsTruthy (x : Option ℤ) : Bool :=
  match x with
  | none => false
  | some v => decide (v ≠ 0)

/-- Embeds `submitOrder(request)`: `rq = request.rq || Date.now()`; the frame
`{mt: 22, ...request, rq}` is passed to `send`; the request id `rq` is returned
unconditionally. `now` stands for `Date.now()`. -/
def submitOrder (socketOpen : Bool) (request : OrderRequest) (now : ℕ) :
    ℕ × Option OrderFrame :=
  let rq := if request.rq ≠ 0 then request.rq else now
  let frame : OrderFrame :=
    { mt := 22, rq := rq, mkt := request.mkt, acc := request.acc, oid := request.oid,
      t := request.t, p := request.p, s := request.s, fl := request.fl,
      lp := request.lp, lv := request.lv, lb := request.lb }
  (rq, send socketOpen frame)

/-- Embeds `openLong(params)`: type `t = 1`, price `p = params.price ?? 0`,
flags `fl = params.flags ?? (params.price ? 0 : 4)` (GTC for a truthy limit
price, IOC for a market order), `rq = Date.now()`. -/
def openLong (socketOpen : Bool) (marketId accountId : ℕ) (size : ℤ)
    (price : Option ℤ) (leverage lastBlock : ℕ) (flags : Option ℕ) (now : ℕ) :
    ℕ × Option OrderFrame :=
  submitOrder socketOpen
    { rq := now, mkt := marketId, acc := accountId, oid := none, t := 1,
      p := price.getD 0, s := size,
      fl := flags.getD (if jsTruthy price then 0 else 4),
      lp := none, lv := leverage, lb := lastBlock } now

/-- Embeds `openShort(params)`: as `openLong` with `t = 2`. -/
def openShort (socketOpen : Bool) (marketId accountId : ℕ) (size : ℤ)
    (price : Option ℤ) (leverage lastBlock : ℕ) (flags : Option ℕ) (now : ℕ) :
    ℕ × Option OrderFrame :=
  submitOrder socketOpen
    { rq := now, mkt := marketId, acc := accountId, oid := none, t := 2,
      p := price.getD 0, s := size,
      fl := flags.getD (if jsTruthy price then 0 else 4),
      lp := none, lv := leverage, lb := lastBlock } now

/-- Embeds `closeLong(params)`: `t = 3`, linked position `lp`, `lv = 0`. -/
def closeLong (socketOpen : Bool) (marketId accountId positionId : ℕ) (size : ℤ)
    (price : Option ℤ) (lastBlock : ℕ) (flags : Option ℕ) (now : ℕ) :
    ℕ × Option OrderFrame :=
  submitOrder socketOpen
    { rq := now, mkt := marketId, acc := accountId, oid := none, t := 3,
      p := price.getD 0, s := size,
      fl := flags.getD (if jsTruthy price then 0 else 4),
      lp := some positionId, lv := 0, lb := lastBlock } now

/-- Embeds `closeShort(params)`: `t = 4`, linked position `lp`, `lv = 0`. -/
def closeShort (socketOpen : Bool) (marketId accountId positionId : ℕ) (size : ℤ)
    (price : Option ℤ) (lastBlock : ℕ) (flags : Option ℕ) (now : ℕ) :
    ℕ × Option OrderFrame :=
  submitOrder socketOpen
    { rq := now, mkt := marketId, acc := accountId, oid := none, t := 4,
      p := price.getD 0, s := size,
      fl := flags.getD (if jsTruthy price then 0 else 4),
      lp := some positionId, lv := 0, lb := lastBlock } now

/-- Embeds `cancelOrder(marketId, accountId, orderId, lastBlock)`: `t = 5`,
`oid` set, `s = 0`, `fl = 0`, `lv = 0`. -/
def cancelOrder (socketOpen : Bool) (marketId accountId orderId lastBlock : ℕ)
    (now : ℕ) : ℕ × Option OrderFrame :=
  submitOrder socketOpen
    { rq := now, mkt := marketId, acc := accountId, oid := some orderId, t := 5,
      p := 0, s := 0, fl := 0, lp := none, lv := 0, lb := lastBlock } now

/-- An outbound `mt: 5` subscription frame. -/
structure SubscribeFrame where
  mt : ℕ
  streams : List String
deriving DecidableEq, Repr

/-- Embeds `subscribe(stream)`: a `{mt: 5, subs: [{stream, subscribe: true}]}`
frame passed to `send`, which drops it when the socket is not OPEN. -/
def subscribe (socketOpen : Bool) (stream : String) : Option SubscribeFrame :=
  if socketOpen then some { mt := 5, streams := [stream] } else none

/-- C9: `openLong(marketId=16, accountId=100, size=1000, price=undefined,
leverage=1000, lastBlock=50000)` emits a frame with `mt=22, t=1, fl=4` (IOC
market order), and the same call with `price=50000` emits a frame with `t=1,
fl=0, p=50000` (GTC limit order). -/
theorem openLong_market_vs_limit (now : ℕ) :
    (openLong true 16 100 1000 none 1000 50000 none now).2 =
      some (⟨22, (if now ≠ 0 then now else now), 16, 100, none, 1, 0, 1000, 4,
        none, 1000, 50000⟩ : OrderFrame) ∧
    (openLong true 16 100 1000 (some 50000) 1000 50000 none now).2 =
      some (⟨22, (if now ≠ 0 then now else now), 16, 100, none, 1, 50000, 1000, 0,
        none, 1000, 50000⟩ : OrderFrame) := by
  constructor <;> rfl

/-- C10: with the underlying socket not OPEN, every outbound send is silently
discarded: `submitOrder` (and each order helper) still returns the request id
`rq`, but no frame is transmitted, and `subscribe` transmits nothing either;
no error is raised and nothing is queued (the model, like the source, has no
send buffer — `send` simply returns without effect). -/
theorem send_when_closed_discards (request : OrderRequest) (now : ℕ)
    (stream : String) (marketId accountId positionId orderId : ℕ) (size : ℤ)
    (price : Option ℤ) (leverage lastBlock : ℕ) (flags : Option ℕ) :
    (submitOrder false request now).2 = none ∧
    (submitOrder false request now).1 =
      (if request.rq ≠ 0 then request.rq else now) ∧
    (openLong false marketId accountId size price leverage lastBlock flags now).2 =
      none ∧
    (openShort false marketId accountId size price leverage lastBlock flags now).2 =
      none ∧
    (closeLong false marketId accountId positionId size price lastBlock flags
      now).2 = none ∧
    (closeShort false marketId accountId positionId size price lastBlock flags
      now).2 = none ∧
    (cancelOrder false marketId accountId orderId lastBlock now).2 = none ∧
    subscribe false stream = none := by
  refine ⟨rfl, rfl, rfl, rfl, rfl, rfl, rfl, rfl⟩

end WS

namespace Api

/-- Embeds `ApiError` (message and HTTP status; the optional body is not read
by the code under verification). -/
structure ApiErrorData where
  message : String
  status : ℕ
deriving DecidableEq, Repr

/-- Embeds the client's `AuthState`: session nonce, captured cookies, flag. -/
structure AuthState where
  nonce : String
  cookies : String
  authenticated : Bool
deriving DecidableEq, Repr

/-- An HTTP response as observed by `requestWithResponse`: status plus the
parsed JSON body (abstracted by `α`). -/
structure ApiResponse (α : Type) where
  status : ℕ
  data : α
deriving DecidableEq, Repr

/-- Embeds the status dispatch of `PerplApiClient.requestWithResponse`:
401 clears the auth state and raises `Unauthorized`; 418, 423, 429 raise their
dedicated errors; 404 raises `Not found`; any other non-2xx raises a generic
`ApiError`; otherwise the parsed body is returned. The first component is the
auth state after the call. -/
def requestWithResponse {α : Type} (auth : Option AuthState)
    (resp : ApiResponse α) : Option AuthState × Except ApiErrorData α :=
  if resp.status = 401 then (none, Except.error ⟨"Unauthorized", 401⟩)
  else if resp.status = 418 then (auth, Except.error ⟨"Access code required", 418⟩)
  else if resp.status = 423 then
    (auth, Except.error ⟨"Access code invalid or exhausted", 423⟩)
  else if resp.status = 429 then (auth, Except.error ⟨"Rate limited", 429⟩)
  else if resp.status = 404 then (auth, Except.error ⟨"Not found", 404⟩)
  else if ¬(200 ≤ resp.status ∧ resp.status < 300) then
    (auth, Except.error ⟨"API error", resp.status⟩)
  else (auth, Except.ok resp.data)

/-- A `{d, np}` history page. -/
structure HistoryPage (α : Type) where
  d : List α
  np : Option String
deriving DecidableEq, Repr

/-- Embeds `getFills(page?, count)`: `requireAuth()` (throwing
`Not authenticated` when no auth state is present, modelled with status 0),
then a plain GET through `requestWithResponse` — with no special handling
of any status. -/
def getFills {α : Type} (auth : Option AuthState)
    (resp : ApiResponse (HistoryPage α)) :
    Option AuthState × Except ApiErrorData (HistoryPage α) :=
  match auth with
  | none => (auth, Except.error ⟨"Not authenticated. Call authenticate() first.", 0⟩)
  | some _ => requestWithResponse auth resp

/-- Embeds `getOrderHistory(page?, count)`: identical dispatch to `getFills`. -/
def getOrderHistory {α : Type} (auth : Option AuthState)
    (resp : ApiResponse (HistoryPage α)) :
    Option AuthState × Except ApiErrorData (HistoryPage α) :=
  match auth with
  | none => (auth, Except.error ⟨"Not authenticated. Call authenticate() first.", 0⟩)
  | some _ => requestWithResponse auth resp

/-- Embeds `getPositionHistory(page?, count)`: identical dispatch to
`getFills`. -/
def getPositionHistory {α : Type} (auth : Option AuthState)
    (resp : ApiResponse (HistoryPage α)) :
    Option AuthState × Except ApiErrorData (HistoryPage α) :=
  match auth with
  | none => (auth, Except.error ⟨"Not authenticated. Call authenticate() first.", 0⟩)
  | some _ => requestWithResponse auth resp

/-- Embeds `getAccountHistory(page?, count)`: identical dispatch to
`getFills`. -/
def getAccountHistory {α : Type} (auth : Option AuthState)
    (resp : ApiResponse (HistoryPage α)) :
    Option AuthState × Except ApiErrorData (HistoryPage α) :=
  match auth with
  | none => (auth, Except.error ⟨"Not authenticated. Call authenticate() first.", 0⟩)
  | some _ => requestWithResponse auth resp

/-- Embeds `getRefCode()`: the one endpoint that normalizes a 404 — the thrown
`ApiError` with status 404 is caught and `null` is returned. -/
def getRefCode {α : Type} (auth : Option AuthState) (resp : ApiResponse α) :
    Option AuthState × Except ApiErrorData (Option α) :=
  match auth with
  | none => (auth, Except.error ⟨"Not authenticated. Call authenticate() first.", 0⟩)
  | some _ =>
    match requestWithResponse auth resp with
    | (a, Except.error e) =>
      if e.status = 404 then (a, Except.ok none) else (a, Except.error e)
    | (a, Except.ok v) => (a, Except.ok (some v))

/-- C6 counterexample: an authenticated `getFills` call receiving a 404
response surfaces the `Not found` `ApiError` — it is NOT normalized to an
empty page (no history endpoint treats 404 specially; only `getRefCode`
does). -/
theorem getFills_404_error_counterexample :
    (getFills (some ⟨"n1", "c1", true⟩)
      ({ status := 404, data := ({ d := [], np := none } : HistoryPage ℕ) })).2 =
      Except.error ⟨"Not found", 404⟩ ∧
    ∀ page : HistoryPage ℕ,
      (getFills (some ⟨"n1", "c1", true⟩)
        ({ status := 404, data := ({ d := [], np := none } : HistoryPage ℕ) })).2 ≠
        Except.ok page := by
  refine ⟨rfl, ?_⟩
  intro page
  simp [getFills, requestWithResponse]

/-- C6 (amended): on every authenticated history call (`getFills`,
`getOrderHistory`, `getPositionHistory`, `getAccountHistory`) a 404 response
surfaces as the `Not found` `ApiError`, exactly as on other non-2xx endpoints;
the sole 404 normalization in the client is `getRefCode`, which maps a 404 to
a successful `null` result. -/
theorem history_404_not_found {α β : Type} (auth : AuthState)
    (page : HistoryPage α) (body : β) :
    (getFills (some auth) { status := 404, data := page }).2 =
      Except.error ⟨"Not found", 404⟩ ∧
    (getOrderHistory (some auth) { status := 404, data := page }).2 =
      Except.error ⟨"Not found", 404⟩ ∧
    (getPositionHistory (some auth) { status := 404, data := page }).2 =
      Except.error ⟨"Not found", 404⟩ ∧
    (getAccountHistory (some auth) { status := 404, data := page }).2 =
      Except.error ⟨"Not found", 404⟩ ∧
    (getRefCode (some auth) { status := 404, data := body }).2 =
      Except.ok none := by
  refine ⟨rfl, rfl, rfl, rfl, rfl⟩

end Api

namespace Tracker

/-- Embeds the fields of a WebSocket `Order` read by the state tracker's
orders handler: order id `oid`, status `st` (Pending=1, Open=2,
PartiallyFilled=3, Filled=4, Cancelled=5, Rejected=6, Expired=7), and the
remove flag `r`. -/
structure ApiOrder where
  oid : ℕ
  st : ℕ
  r : Bool
deriving DecidableEq, Repr

/-- Embeds the fields of a WebSocket `Position` read by the positions handler:
position id `pid` and status `st` (Open=1, Closed=2, Liquidated=3). -/
structure ApiPosition where
  pid : ℕ
  st : ℕ
deriving DecidableEq, Repr

/-- JavaScript `Map.set`: replace in place when the key exists, else append
(insertion order preserved). -/
def mapSet {α : Type} (m : List (ℕ × α)) (k : ℕ) (v : α) : List (ℕ × α) :=
  if m.any (fun p => p.1 = k) then
    m.map (fun p => if p.1 = k then (k, v) else p)
  else m ++ [(k, v)]

/-- JavaScript `Map.delete`. -/
def mapDelete {α : Type} (m : List (ℕ × α)) (k : ℕ) : List (ℕ × α) :=
  m.filter (fun p => p.1 ≠ k)

/-- JavaScript `Map.has`. -/
def hasKey {α : Type} (m : List (ℕ × α)) (k : ℕ) : Bool :=
  m.any (fun p => p.1 = k)

/-- Embeds the body of the tracker's `orders` handler for one entry:
`if (order.r) delete(oid); else if (st === 2 || st === 3) set(oid, order);
else delete(oid)`. -/
def ordersStep (acc : List (ℕ × ApiOrder)) (o : ApiOrder) : List (ℕ × ApiOrder) :=
  if o.r then mapDelete acc o.oid
  else if o.st = 2 ∨ o.st = 3 then mapSet acc o.oid o
  else mapDelete acc o.oid

/-- Embeds the tracker's `orders` handler: the entries of one update are
processed in order. -/
def applyOrdersUpdate (m : List (ℕ × ApiOrder)) (orders : List ApiOrder) :
    List (ℕ × ApiOrder) :=
  orders.foldl ordersStep m

/-- Embeds the body of the tracker's `positions` handler for one entry:
`if (pos.st === 1) set(pid, pos); else delete(pid)`. -/
def positionsStep (acc : List (ℕ × ApiPosition)) (p : ApiPosition) :
    List (ℕ × ApiPosition) :=
  if p.st = 1 then mapSet acc p.pid p else mapDelete acc p.pid

/-- Embeds the tracker's `positions` handler. -/
def applyPositionsUpdate (m : List (ℕ × ApiPosition)) (ps : List ApiPosition) :
    List (ℕ × ApiPosition) :=
  ps.foldl positionsStep m

theorem hasKey_mapDelete_self {α : Type} (m : List (ℕ × α)) (k : ℕ) :
    hasKey (mapDelete m k) k = false := by
  rw [hasKey, List.any_eq_false]
  intro x hx
  have hq := List.of_mem_filter hx
  simp at hq ⊢
  exact hq

theorem hasKey_mapDelete_of_absent {α : Type} (m : List (ℕ × α)) (k k2 : ℕ)
    (hm : hasKey m k = false) : hasKey (mapDelete m k2) k = false := by
  rw [hasKey, List.any_eq_false]
  rw [hasKey, List.any_eq_false] at hm
  intro x hx
  exact hm x (List.mem_of_mem_filter hx)

theorem hasKey_mapSet_of_ne {α : Type} (m : List (ℕ × α)) (k k2 : ℕ) (v : α)
    (hne : k2 ≠ k) (hm : hasKey m k = false) : hasKey (mapSet m k2 v) k = false := by
  simp only [hasKey, List.any_eq_false] at hm
  rw [mapSet]
  split
  · rw [hasKey, List.any_map, List.any_eq_false]
    intro x hx
    have hold := hm x hx
    by_cases h : x.1 = k2 <;> simp [Function.comp, h, hne] <;> simpa [h] using hold
  · rw [hasKey, List.any_eq_false]
    intro x hx
    rcases List.mem_append.mp hx with h1 | h1
    · exact hm x h1
    · simp only [List.mem_singleton] at h1
      subst h1
      simpa using hne

theorem ordersStep_removes (acc : List (ℕ × ApiOrder)) (o : ApiOrder)
    (h : o.r = true ∨ (o.st ≠ 2 ∧ o.st ≠ 3)) :
    hasKey (ordersStep acc o) o.oid = false := by
  rw [ordersStep]
  rcases h with h | h
  · rw [if_pos h]
    exact hasKey_mapDelete_self acc o.oid
  · by_cases hr : o.r
    · rw [if_pos hr]
      exact hasKey_mapDelete_self acc o.oid
    · rw [if_neg hr, if_neg (by tauto)]
      exact hasKey_mapDelete_self acc o.oid

theorem ordersStep_preserves_absent (acc : List (ℕ × ApiOrder)) (o : ApiOrder)
    (k : ℕ) (hne : o.oid ≠ k) (hm : hasKey acc k = false) :
    hasKey (ordersStep acc o) k = false := by
  rw [ordersStep]
  split
  · exact hasKey_mapDelete_of_absent acc k o.oid hm
  · split
    · exact hasKey_mapSet_of_ne acc k o.oid o hne hm
    · exact hasKey_mapDelete_of_absent acc k o.oid hm

theorem applyOrders_preserves_absent (l : List ApiOrder) (m : List (ℕ × ApiOrder))
    (k : ℕ) (hall : ∀ o ∈ l, o.oid ≠ k) (hm : hasKey m k = false) :
    hasKey (applyOrdersUpdate m l) k = false := by
  induction l generalizing m with
  | nil => exact hm
  | cons o t ih =>
    rw [applyOrdersUpdate, List.foldl_cons]
    exact ih (ordersStep m o) (fun o2 ho2 => hall o2 (List.mem_cons_of_mem o ho2))
      (ordersStep_preserves_absent m o k (hall o (List.mem_cons_self o t)) hm)

theorem positionsStep_removes (acc : List (ℕ × ApiPosition)) (p : ApiPosition)
    (h : p.st ≠ 1) : hasKey (positionsStep acc p) p.pid = false := by
  rw [positionsStep, if_neg h]
  exact hasKey_mapDelete_self acc p.pid

theorem positionsStep_preserves_absent (acc : List (ℕ × ApiPosition))
    (p : ApiPosition) (k : ℕ) (hne : p.pid ≠ k) (hm : hasKey acc k = false) :
    hasKey (positionsStep acc p) k = false := by
  rw [positionsStep]
  split
  · exact hasKey_mapSet_of_ne acc k p.pid p hne hm
  · exact hasKey_mapDelete_of_absent acc k p.pid hm

theorem applyPositions_preserves_absent (l : List ApiPosition)
    (m : List (ℕ × ApiPosition)) (k : ℕ) (hall : ∀ p ∈ l, p.pid ≠ k)
    (hm : hasKey m k = false) : hasKey (applyPositionsUpdate m l) k = false := by
  induction l generalizing m with
  | nil => exact hm
  | cons p t ih =>
    rw [applyPositionsUpdate, List.foldl_cons]
    exact ih (positionsStep m p) (fun p2 hp2 => hall p2 (List.mem_cons_of_mem p hp2))
      (positionsStep_preserves_absent m p k (hall p (List.mem_cons_self p t)) hm)

/-- C8 counterexample: update entries are processed in order, so a later entry
for the same id can re-add it. The orders update
`[{oid 1, status Filled (4)}, {oid 1, status Open (2)}]` leaves order id 1 in
the open-orders map even though its first entry has a terminal status, and the
positions update `[{pid 5, status Closed (2)}, {pid 5, status Open (1)}]`
leaves position id 5 in the positions map even though its first entry has
status ≠ Open. -/
theorem tracker_update_removes_counterexample :
    hasKey (applyOrdersUpdate [] [⟨1, 4, false⟩, ⟨1, 2, false⟩]) 1 = true ∧
    ((⟨1, 4, false⟩ : ApiOrder).r = false ∧ (⟨1, 4, false⟩ : ApiOrder).st ≠ 2 ∧
      (⟨1, 4, false⟩ : ApiOrder).st ≠ 3) ∧
    hasKey (applyPositionsUpdate [] [⟨5, 2⟩, ⟨5, 1⟩]) 5 = true ∧
    (⟨5, 2⟩ : ApiPosition).st ≠ 1 := by
  refine ⟨by decide, by decide, by decide, by decide⟩

/-- C8 (amended): for every orders update, every entry with `r = true` or a
status outside {Open (2), PartiallyFilled (3)} that is the LAST entry for its
order id in the update leaves that id absent from the open-orders map; and for
every positions update, every entry with status ≠ Open (1) that is the last
entry for its position id leaves that id absent — entries are processed in
order, so only a later entry for the same id can resurrect it. -/
theorem tracker_update_removes :
    (∀ (m : List (ℕ × ApiOrder)) (pre post : List ApiOrder) (o : ApiOrder),
      (∀ o2 ∈ post, o2.oid ≠ o.oid) →
      (o.r = true ∨ (o.st ≠ 2 ∧ o.st ≠ 3)) →
      hasKey (applyOrdersUpdate m (pre ++ o :: post)) o.oid = false) ∧
    (∀ (m : List (ℕ × ApiPosition)) (pre post : List ApiPosition) (p : ApiPosition),
      (∀ p2 ∈ post, p2.pid ≠ p.pid) →
      p.st ≠ 1 →
      hasKey (applyPositionsUpdate m (pre ++ p :: post)) p.pid = false) := by
  constructor
  · intro m pre post o hlast hterm
    rw [applyOrdersUpdate, List.foldl_append, List.foldl_cons]
    exact applyOrders_preserves_absent post _ o.oid hlast
      (ordersStep_removes _ o hterm)
  · intro m pre post p hlast hst
    rw [applyPositionsUpdate, List.foldl_append, List.foldl_cons]
    exact applyPositions_preserves_absent post _ p.pid hlast
      (positionsStep_removes _ p hst)

/-- Witness for C8 (amended) on a map holding order id 1 / position id 5, an
update whose terminal entry for that id is followed only by other ids. -/
theorem tracker_update_removes_witness :
    hasKey (applyOrdersUpdate [(1, ⟨1, 2, false⟩)]
      ([] ++ (⟨1, 4, false⟩ : ApiOrder) :: [⟨2, 2, false⟩])) 1 = false ∧
    hasKey (applyPositionsUpdate [(5, ⟨5, 1⟩)]
      ([] ++ (⟨5, 3⟩ : ApiPosition) :: [⟨6, 1⟩])) 5 = false := by
  constructor
  · exact tracker_update_removes.1 [(1, ⟨1, 2, false⟩)] [] [⟨2, 2, false⟩]
      ⟨1, 4, false⟩ (by decide) (by decide)
  · exact tracker_update_removes.2 [(5, ⟨5, 1⟩)] [] [⟨6, 1⟩]
      ⟨5, 3⟩ (by decide) (by decide)

end Tracker

end PerplBot
